import Mathlib

/-!
Shallow embedding of the `gae` library (sharded counter, cache-aside entity
accessor, session helpers) and proofs about the behaviour its specification
claims.

The datastore and memcache collaborators are modelled as association lists
keyed by strings; the nondeterministic and fallible collaborator responses
(random shard picks, cache hits/misses, transport errors) are passed as
explicit parameters, so each Go function becomes a total Lean function of
its inputs and its collaborators' responses.
-/

namespace GAE

/-- GoErr models the Go `error` values distinguished by the library's code
paths: `datastore.ErrNoSuchEntity`, cache misses, `ValidityError` (whose
`Msg` field the model keeps), and opaque transport errors. -/
inductive GoErr where
  | noSuchEntity
  | cacheMiss
  | validity (msg : String)
  | other (msg : String)
deriving DecidableEq, Repr

/-- Lookup in an association list, returning the first binding of the key;
this models a key-value store read. -/
def getAssoc {α : Type} : List (String × α) → String → Option α
  | [], _ => none
  | kv :: rest, k => if kv.1 = k then some kv.2 else getAssoc rest k

/-- Write to an association list: replace the first binding of the key if
present, append otherwise; this models a key-value store put. -/
def putAssoc {α : Type} : List (String × α) → String → α → List (String × α)
  | [], k, v => [(k, v)]
  | kv :: rest, k, v => if kv.1 = k then (k, v) :: rest else kv :: putAssoc rest k v

/-- Remove every binding of a key; this models a key-value store delete. -/
def delAssoc {α : Type} (l : List (String × α)) (k : String) : List (String × α) :=
  l.filter (fun kv => kv.1 != k)

theorem getAssoc_put_self {α : Type} (l : List (String × α)) (k : String) (v : α) :
    getAssoc (putAssoc l k v) k = some v := by
  induction l with
  | nil => simp [getAssoc, putAssoc]
  | cons kv rest ih =>
    by_cases h : kv.1 = k
    · simp [getAssoc, putAssoc, h]
    · simp [getAssoc, putAssoc, h, ih]

theorem getAssoc_put_ne {α : Type} (l : List (String × α)) (k k2 : String) (v : α)
    (h : k2 ≠ k) : getAssoc (putAssoc l k v) k2 = getAssoc l k2 := by
  have hne : ¬ k = k2 := fun he => h he.symm
  induction l with
  | nil => simp [getAssoc, putAssoc, hne]
  | cons kv rest ih =>
    by_cases hk : kv.1 = k
    · have hkv2 : ¬ kv.1 = k2 := by rw [hk]; exact hne
      simp [getAssoc, putAssoc, hk, hne, hkv2]
    · by_cases hk2 : kv.1 = k2
      · simp [getAssoc, putAssoc, hk, hk2, hne, h]
      · simp [getAssoc, putAssoc, hk, hk2, ih]

theorem getAssoc_del {α : Type} (l : List (String × α)) (k : String) :
    getAssoc (delAssoc l k) k = none := by
  induction l with
  | nil => simp [getAssoc, delAssoc]
  | cons kv rest ih =>
    by_cases h : kv.1 = k
    · simpa [delAssoc, h] using ih
    · simpa [delAssoc, getAssoc, h] using ih

/-! ### Sharded counter (newest snapshot in src/CHANGELOG.md) -/

/-- counterConfig stores the number of shards. -/
structure counterConfig where
  Shards : Int
deriving DecidableEq, Repr

/-- counterShard stores a shard of the named counter. -/
structure counterShard where
  Name : String
  Count : Int
deriving DecidableEq, Repr

/-- KindCounterShard is the entity kind for storing a shard of the counter. -/
def KindCounterShard : String := "GAECounterShard"

/-- defaultShards is the default number of shards if not specified. -/
def defaultShards : Int := 5

/-- counterMemcacheKey creates the key for the memcache object storing the
counter by prefixing the name with the constant `KindCounterShard` and ":". -/
def counterMemcacheKey (name : String) : String :=
  KindCounterShard ++ ":" ++ name

/-- World models the two Datastore kinds the counter subsystem touches
(configs keyed by counter name, shards keyed by the shard key string) and
the memcache entries holding JSON-encoded counter totals. -/
structure World where
  configs : List (String × counterConfig)
  shards : List (String × counterShard)
  cache : List (String × Int)
deriving DecidableEq, Repr

/-- shardKey renders `fmt.Sprintf("%v-shard%d", name, i)`. -/
def shardKey (name : String) (i : Nat) : String :=
  name ++ "-shard" ++ toString i

/-- incrementExisting models `memcache.IncrementExisting`: add the delta when
the entry exists, and do nothing (a silently ignored miss) otherwise. -/
def incrementExisting (l : List (String × Int)) (k : String) (d : Int) :
    List (String × Int) :=
  match getAssoc l k with
  | none => l
  | some v => putAssoc l k (v + d)

/-- effectiveShards is the configuration read both counter transactions
perform: `datastore.Get` on the config key, treating `ErrNoSuchEntity` as the
default shard count. -/
def effectiveShards (w : World) (name : String) : Int :=
  match getAssoc w.configs name with
  | some cfg => cfg.Shards
  | none => defaultShards

/-- CounterIncrement models the success path of the Go function: the first
transaction bootstraps the config with `defaultShards` when absent; the
second reads the shard at `shardKey name (rand.Intn cfg.Shards)` (tolerating
not-found as a zero-valued shard), sets its Name to the counter name,
increments Count and writes it back; finally `memcache.IncrementExisting`
bumps the cached total, its miss silently ignored. The random draw
`rand.Intn cfg.Shards` is modelled by `pick % cfg.Shards.toNat`, which ranges
over exactly the same indices as `pick` varies. -/
def CounterIncrement (w : World) (name : String) (pick : Nat) : World :=
  let cfgShards : Int := effectiveShards w name
  let w1 : World :=
    match getAssoc w.configs name with
    | some _ => w
    | none => { w with configs := putAssoc w.configs name ⟨defaultShards⟩ }
  let sk : String := shardKey name (pick % cfgShards.toNat)
  let oldCount : Int :=
    match getAssoc w1.shards sk with
    | some s => s.Count
    | none => 0
  let s : counterShard := { Name := name, Count := oldCount + 1 }
  let w2 : World := { w1 with shards := putAssoc w1.shards sk s }
  { w2 with cache := incrementExisting w2.cache (counterMemcacheKey name) 1 }

/-- ScanEvent is one response of the filtered shard query iterator: either
the next matching record, or a non-`Done` error; the `datastore.Done`
sentinel is the end of the list. -/
inductive ScanEvent where
  | next (s : counterShard)
  | fail (e : GoErr)
deriving DecidableEq, Repr

/-- scanLoop is the `for it := q.Run(ctx); ;` loop of CounterCount: it adds
each record's Count to the running total, stops with the accumulated total
and the error on a failing `it.Next`, and returns the total with no error at
the `datastore.Done` sentinel. -/
def scanLoop : List ScanEvent → Int → Int × Option GoErr
  | [], total => (total, none)
  | ScanEvent.next s :: rest, total => scanLoop rest (total + s.Count)
  | ScanEvent.fail e :: _, total => (total, some e)

/-- CounterCount as a function of its collaborators' responses: `cacheGet`
is the outcome of `memcache.JSON.Get` at the counter's memcache key (on
`ok v` the cached total `v` is returned untouched), `scan` lists the shard
query iterator's responses in order, and `setResult` is the outcome of the
final `memcache.JSON.Set`, which the code discards. -/
def CounterCount (cacheGet : Except GoErr Int) (scan : List ScanEvent)
    (setResult : Option GoErr) : Int × Option GoErr :=
  match cacheGet with
  | Except.ok total => (total, none)
  | Except.error _ =>
    match scanLoop scan 0 with
    | (total, some e) => (total, some e)
    | (total, none) =>
      let _ := setResult
      (total, none)

/-- scanEvents is the honest behaviour of the query
`datastore.NewQuery(KindCounterShard).Filter("Name =", name)` on a world:
it yields, without failures, exactly the shard records whose Name field
equals the counter name. -/
def scanEvents (w : World) (name : String) : List ScanEvent :=
  ((w.shards.filter (fun kv => kv.2.Name == name)).map Prod.snd).map ScanEvent.next

/-- sumFor is the total the honest scan aggregates: the sum of the Count
fields of the shard records whose Name field equals the counter name. -/
def sumFor (l : List (String × counterShard)) (name : String) : Int :=
  (((l.filter (fun kv => kv.2.Name == name)).map Prod.snd).map counterShard.Count).sum

/-- CounterIncreaseShards models the single transaction of the Go function:
read the config (treating not-found as the default count and marking the
record as new), raise the count to `n` only when the stored count is below
`n`, and write back only if anything changed. -/
def CounterIncreaseShards (w : World) (name : String) (n : Int) : World :=
  let found := getAssoc w.configs name
  let shards0 : Int :=
    match found with
    | some cfg => cfg.Shards
    | none => defaultShards
  let changed0 : Bool := found.isNone
  let shards1 : Int := if shards0 < n then n else shards0
  let changed1 : Bool := if shards0 < n then true else changed0
  if changed1 then { w with configs := putAssoc w.configs name ⟨shards1⟩ } else w

/-- iterateIncrements folds a sequence of successful CounterIncrement calls
(one random pick per call) over a world. -/
def iterateIncrements (w : World) (name : String) : List Nat → World
  | [] => w
  | p :: ps => iterateIncrements (CounterIncrement w name p) name ps

theorem sumFor_cons (kv : String × counterShard) (l : List (String × counterShard))
    (name : String) :
    sumFor (kv :: l) name =
      (if kv.2.Name == name then kv.2.Count else 0) + sumFor l name := by
  by_cases h : kv.2.Name == name <;> simp [sumFor, List.filter_cons, h]

theorem sumFor_put_fresh (l : List (String × counterShard)) (k : String)
    (v : counterShard) (name : String) (h : getAssoc l k = none) :
    sumFor (putAssoc l k v) name =
      sumFor l name + (if v.Name == name then v.Count else 0) := by
  induction l with
  | nil =>
    by_cases hv : v.Name == name <;> simp [sumFor, putAssoc, List.filter_cons, hv]
  | cons kv rest ih =>
    have hk : ¬ kv.1 = k := by
      intro he
      simp [getAssoc, he] at h
    have hrest : getAssoc rest k = none := by
      simpa [getAssoc, hk] using h
    simp only [putAssoc, hk, if_false, sumFor_cons, ih hrest]
    ring

theorem sumFor_put_found (l : List (String × counterShard)) (k : String)
    (v s : counterShard) (name : String) (h : getAssoc l k = some s) :
    sumFor (putAssoc l k v) name =
      sumFor l name - (if s.Name == name then s.Count else 0)
        + (if v.Name == name then v.Count else 0) := by
  induction l with
  | nil => simp [getAssoc] at h
  | cons kv rest ih =>
    by_cases hk : kv.1 = k
    · have hs : s = kv.2 := by
        have := h
        simp [getAssoc, hk] at this
        exact this.symm
      subst hs
      simp only [putAssoc, hk, if_true, sumFor_cons]
      ring
    · have hrest : getAssoc rest k = some s := by
        simpa [getAssoc, hk] using h
      simp only [putAssoc, hk, if_false, sumFor_cons, ih hrest]
      ring

/-- ShardNameInv states that every shard record stored at one of the shard
keys of a counter carries that counter's name in its Name field; it holds
for any world whose shard records were created by CounterIncrement. -/
def ShardNameInv (l : List (String × counterShard)) (name : String) : Prop :=
  ∀ i s, getAssoc l (shardKey name i) = some s → s.Name = name

/-- oldCountAt is the count CounterIncrement reads before writing: the
stored shard's Count, or zero when the shard record does not exist yet. -/
def oldCountAt (l : List (String × counterShard)) (k : String) : Int :=
  match getAssoc l k with
  | some s => s.Count
  | none => 0

theorem counterIncrement_shards (w : World) (name : String) (pick : Nat) :
    ∃ i, (CounterIncrement w name pick).shards =
      putAssoc w.shards (shardKey name i)
        ⟨name, oldCountAt w.shards (shardKey name i) + 1⟩ := by
  refine ⟨pick % (effectiveShards w name).toNat, ?_⟩
  unfold CounterIncrement effectiveShards oldCountAt
  cases h : getAssoc w.configs name <;>
    cases h2 : getAssoc w.shards (shardKey name (pick % defaultShards.toNat)) <;>
      simp [h, h2]

theorem sumFor_bump (l : List (String × counterShard)) (name : String) (i : Nat)
    (hinv : ShardNameInv l name) :
    sumFor (putAssoc l (shardKey name i) ⟨name, oldCountAt l (shardKey name i) + 1⟩) name
      = sumFor l name + 1 := by
  cases h : getAssoc l (shardKey name i) with
  | none =>
    rw [sumFor_put_fresh _ _ _ _ h]
    simp [oldCountAt, h]
  | some s =>
    have hs : s.Name = name := hinv i s h
    rw [sumFor_put_found _ _ _ _ _ h]
    simp only [oldCountAt, h, hs, beq_self_eq_true, if_true]
    ring

theorem shardNameInv_put (l : List (String × counterShard)) (name : String)
    (i : Nat) (v : counterShard) (hv : v.Name = name) (hinv : ShardNameInv l name) :
    ShardNameInv (putAssoc l (shardKey name i) v) name := by
  intro j s hs
  by_cases hj : shardKey name j = shardKey name i
  · rw [hj, getAssoc_put_self] at hs
    cases hs
    exact hv
  · rw [getAssoc_put_ne _ _ _ _ hj] at hs
    exact hinv j s hs

theorem iterate_sum (name : String) (ps : List Nat) :
    ∀ w : World, ShardNameInv w.shards name →
      sumFor (iterateIncrements w name ps).shards name
          = sumFor w.shards name + ps.length
        ∧ ShardNameInv (iterateIncrements w name ps).shards name := by
  induction ps with
  | nil =>
    intro w hinv
    simpa [iterateIncrements] using hinv
  | cons p ps ih =>
    intro w hinv
    obtain ⟨i, hsh⟩ := counterIncrement_shards w name p
    have hinc : ShardNameInv (CounterIncrement w name p).shards name := by
      rw [hsh]
      exact shardNameInv_put _ _ _ _ rfl hinv
    obtain ⟨hsum, hinv2⟩ := ih (CounterIncrement w name p) hinc
    refine ⟨?_, by simpa [iterateIncrements] using hinv2⟩
    have hstep : sumFor (CounterIncrement w name p).shards name
        = sumFor w.shards name + 1 := by
      rw [hsh]
      exact sumFor_bump _ _ _ hinv
    show sumFor (iterateIncrements (CounterIncrement w name p) name ps).shards name
      = sumFor w.shards name + ((ps.length + 1 : Nat) : Int)
    rw [hsum, hstep]
    push_cast
    ring

theorem scanLoop_next (ss : List counterShard) (t : Int) :
    scanLoop (ss.map ScanEvent.next) t
      = (t + (ss.map counterShard.Count).sum, none) := by
  induction ss generalizing t with
  | nil => simp [scanLoop]
  | cons s rest ih =>
    simp only [List.map_cons, scanLoop, ih, List.sum_cons]
    rw [Prod.mk.injEq]
    constructor
    · ring
    · rfl

theorem counterCount_scanEvents (w : World) (name : String) (ce : GoErr)
    (sr : Option GoErr) :
    CounterCount (Except.error ce) (scanEvents w name) sr
      = (sumFor w.shards name, none) := by
  unfold CounterCount scanEvents
  rw [scanLoop_next]
  simp [sumFor]

/-- C1: starting from a world holding no shard records for a counter name,
`k` successful CounterIncrement calls (whatever random picks they make)
followed by a cache-bypassed CounterCount return exactly `k` with no error:
each increment adds exactly one to exactly one shard record and the count
sums the shard records whose Name field equals the counter name. -/
theorem counterCount_after_increments (w : World) (name : String) (ps : List Nat)
    (ce : GoErr) (sr : Option GoErr)
    (h1 : ∀ kv ∈ w.shards, kv.2.Name ≠ name)
    (h2 : ∀ i, getAssoc w.shards (shardKey name i) = none) :
    CounterCount (Except.error ce) (scanEvents (iterateIncrements w name ps) name) sr
      = ((ps.length : Int), none) := by
  have hinv : ShardNameInv w.shards name := by
    intro i s hs
    rw [h2 i] at hs
    cases hs
  have hfilter : w.shards.filter (fun kv => kv.2.Name == name) = [] := by
    rw [List.filter_eq_nil_iff]
    intro kv hkv
    simpa using h1 kv hkv
  have h0 : sumFor w.shards name = 0 := by
    simp [sumFor, hfilter]
  obtain ⟨hsum, _⟩ := iterate_sum name ps w hinv
  rw [counterCount_scanEvents, hsum, h0]
  simp

/-- Witness for counterCount_after_increments: three increments on the empty
world make the cache-bypassed count return 3. -/
theorem counterCount_after_increments_witness :
    CounterCount (Except.error GoErr.cacheMiss)
        (scanEvents (iterateIncrements ⟨[], [], []⟩ "hits" [0, 1, 2]) "hits") none
      = ((3 : Int), none) :=
  counterCount_after_increments ⟨[], [], []⟩ "hits" [0, 1, 2] GoErr.cacheMiss none
    (fun kv hkv => absurd hkv (List.not_mem_nil kv)) (fun _ => rfl)

theorem counterIncreaseShards_eq (w : World) (name : String) (n : Int) :
    CounterIncreaseShards w name n =
      match getAssoc w.configs name with
      | none =>
        { w with configs :=
            putAssoc w.configs name ⟨if defaultShards < n then n else defaultShards⟩ }
      | some cfg =>
        if cfg.Shards < n then
          { w with configs := putAssoc w.configs name ⟨n⟩ }
        else w := by
  unfold CounterIncreaseShards
  cases h : getAssoc w.configs name with
  | none => by_cases hlt : defaultShards < n <;> simp [hlt]
  | some cfg => by_cases hlt : cfg.Shards < n <;> simp [hlt]

theorem counterIncreaseShards_sets (w : World) (name : String) (n : Int)
    (h : effectiveShards w name ≤ n) :
    getAssoc (CounterIncreaseShards w name n).configs name = some ⟨n⟩ := by
  rw [counterIncreaseShards_eq]
  cases hc : getAssoc w.configs name with
  | none =>
    have hd : defaultShards ≤ n := by simpa [effectiveShards, hc] using h
    by_cases hlt : defaultShards < n
    · simp [hlt, getAssoc_put_self]
    · have hn : n = defaultShards := le_antisymm (not_lt.mp hlt) hd
      subst hn
      simp [hlt, getAssoc_put_self]
  | some c =>
    have hcs : c.Shards ≤ n := by simpa [effectiveShards, hc] using h
    by_cases hlt : c.Shards < n
    · simp [hlt, getAssoc_put_self]
    · have hn : c.Shards = n := le_antisymm hcs (not_lt.mp hlt)
      have hcn : c = ⟨n⟩ := by cases c; simpa using hn
      subst hcn
      simp [hlt, hc]

theorem counterIncreaseShards_noop (w : World) (name : String) (m : Int)
    (c : counterConfig) (hc : getAssoc w.configs name = some c)
    (hlt : ¬ c.Shards < m) : CounterIncreaseShards w name m = w := by
  rw [counterIncreaseShards_eq, hc]
  simp [hlt]

theorem counterIncreaseShards_configs_other (w : World) (name nm : String)
    (n : Int) (h : nm ≠ name) :
    getAssoc (CounterIncreaseShards w name n).configs nm
      = getAssoc w.configs nm := by
  rw [counterIncreaseShards_eq]
  cases getAssoc w.configs name with
  | none => simp [getAssoc_put_ne _ _ _ _ h]
  | some cfg =>
    by_cases hlt : cfg.Shards < n <;> simp [hlt, getAssoc_put_ne _ _ _ _ h]

/-- C2 counterexample: starting from the empty world,
CounterIncreaseShards "c" 3 followed by CounterIncreaseShards "c" 2 leaves
the stored shard count at the default 5, not at 3: the claimed equality to
`n` fails whenever `n` does not exceed the stored (or default) count. -/
theorem counterIncreaseShards_shrink_counterexample :
    getAssoc (CounterIncreaseShards
        (CounterIncreaseShards ⟨[], [], []⟩ "c" 3) "c" 2).configs "c"
      = some ⟨5⟩
    ∧ getAssoc (CounterIncreaseShards
        (CounterIncreaseShards ⟨[], [], []⟩ "c" 3) "c" 2).configs "c"
      ≠ some ⟨3⟩ := by
  constructor
  · rfl
  · decide

/-- C2 amended: when the target `n` is at least the effective (stored, or
default when absent) shard count, CounterIncreaseShards sets the stored
count to `n` and a later call with a smaller target leaves it at `n`; and
neither CounterIncreaseShards nor CounterIncrement ever lowers a stored
shard count (CounterCount does not touch the configuration at all). -/
theorem counterIncreaseShards_monotone :
    (∀ (w : World) (name : String) (n m : Int), m < n →
        effectiveShards w name ≤ n →
        getAssoc (CounterIncreaseShards
            (CounterIncreaseShards w name n) name m).configs name
          = some ⟨n⟩)
    ∧ (∀ (w : World) (name nm : String) (n : Int) (c : counterConfig),
        getAssoc w.configs nm = some c →
          ∃ c2, getAssoc (CounterIncreaseShards w name n).configs nm = some c2
            ∧ c.Shards ≤ c2.Shards)
    ∧ (∀ (w : World) (name nm : String) (pick : Nat) (c : counterConfig),
        getAssoc w.configs nm = some c →
          ∃ c2, getAssoc (CounterIncrement w name pick).configs nm = some c2
            ∧ c.Shards ≤ c2.Shards) := by
  refine ⟨?_, ?_, ?_⟩
  · intro w name n m hmn h
    have h1 := counterIncreaseShards_sets w name n h
    rw [counterIncreaseShards_noop _ _ _ _ h1 (not_lt.mpr (le_of_lt hmn))]
    exact h1
  · intro w name nm n c hc
    by_cases hnm : nm = name
    · subst hnm
      by_cases hlt : c.Shards < n
      · refine ⟨⟨n⟩, ?_, le_of_lt hlt⟩
        rw [counterIncreaseShards_eq, hc]
        simp [hlt, getAssoc_put_self]
      · refine ⟨c, ?_, le_refl _⟩
        rw [counterIncreaseShards_noop _ _ _ _ hc hlt]
        exact hc
    · refine ⟨c, ?_, le_refl _⟩
      rw [counterIncreaseShards_configs_other _ _ _ _ hnm]
      exact hc
  · intro w name nm pick c hc
    by_cases hnm : nm = name
    · subst hnm
      exact ⟨c, by simp [CounterIncrement, hc], le_refl _⟩
    · refine ⟨c, ?_, le_refl _⟩
      unfold CounterIncrement
      cases h : getAssoc w.configs name <;>
        simp [h, hc, getAssoc_put_ne _ _ _ _ hnm]

/-- Witness for counterIncreaseShards_monotone: raising the empty world's
counter "c" to 9 shards and then asking for 2 leaves 9 stored. -/
theorem counterIncreaseShards_monotone_witness :
    getAssoc (CounterIncreaseShards
        (CounterIncreaseShards ⟨[], [], []⟩ "c" 9) "c" 2).configs "c"
      = some ⟨9⟩ :=
  counterIncreaseShards_monotone.1 ⟨[], [], []⟩ "c" 9 2 (by norm_num)
    (by norm_num [effectiveShards, getAssoc, defaultShards])

theorem scanLoop_append_fail (ss : List counterShard) (e : GoErr)
    (rest : List ScanEvent) (t : Int) :
    scanLoop (ss.map ScanEvent.next ++ ScanEvent.fail e :: rest) t
      = (t + (ss.map counterShard.Count).sum, some e) := by
  induction ss generalizing t with
  | nil => simp [scanLoop]
  | cons s ss2 ih =>
    have hstep : scanLoop ((s :: ss2).map ScanEvent.next ++ ScanEvent.fail e :: rest) t
        = scanLoop (ss2.map ScanEvent.next ++ ScanEvent.fail e :: rest) (t + s.Count) :=
      rfl
    rw [hstep, ih, Prod.mk.injEq]
    refine ⟨?_, rfl⟩
    simp only [List.map_cons, List.sum_cons]
    ring

/-- C10: when the shard scan fails after yielding some records, CounterCount
returns the partial sum of the records read before the error together with
that error; the returned integer is not reset to zero on failure. -/
theorem counterCount_partial_on_scan_error (ss : List counterShard) (e : GoErr)
    (rest : List ScanEvent) (ce : GoErr) (sr : Option GoErr) :
    CounterCount (Except.error ce)
        (ss.map ScanEvent.next ++ ScanEvent.fail e :: rest) sr
      = ((ss.map counterShard.Count).sum, some e) := by
  unfold CounterCount
  rw [scanLoop_append_fail]
  simp

theorem scanLoop_fail_mem (scan : List ScanEvent) (t : Int) (e : GoErr)
    (h : (scanLoop scan t).2 = some e) : ScanEvent.fail e ∈ scan := by
  induction scan generalizing t with
  | nil => simp [scanLoop] at h
  | cons ev rest ih =>
    cases ev with
    | next s =>
      simp only [scanLoop] at h
      exact List.mem_cons_of_mem _ (ih _ h)
    | fail e2 =>
      simp only [scanLoop] at h
      cases h
      exact List.mem_cons_self _ _

/-- C8: CounterCount never surfaces an error caused by the cache: any error
it returns came from the shard scan, its result does not depend on the
outcome of the final cache write, and after a cache read miss or read error
the result does not depend on which cache error occurred. -/
theorem counterCount_cache_error_policy (cg : Except GoErr Int)
    (scan : List ScanEvent) (sr sr2 : Option GoErr) :
    (∀ e, (CounterCount cg scan sr).2 = some e → ScanEvent.fail e ∈ scan)
    ∧ CounterCount cg scan sr = CounterCount cg scan sr2
    ∧ ∀ ce ce2 : GoErr,
        CounterCount (Except.error ce) scan sr
          = CounterCount (Except.error ce2) scan sr := by
  refine ⟨?_, ?_, ?_⟩
  · intro e he
    cases cg with
    | ok v => simp [CounterCount] at he
    | error ce =>
      apply scanLoop_fail_mem scan 0 e
      unfold CounterCount at he
      rcases hsl : scanLoop scan 0 with ⟨total, err⟩
      rw [hsl] at he
      cases err with
      | none => simp at he
      | some e2 => simpa using he
  · cases cg with
    | ok v => rfl
    | error ce =>
      unfold CounterCount
      rcases hsl : scanLoop scan 0 with ⟨total, err⟩
      cases err <;> rfl
  · intro ce ce2
    rfl

/-- Witness for counterCount_cache_error_policy: on a scan that yields one
record and then fails, the surfaced error is indeed one of the scan's
failure events. -/
theorem counterCount_cache_error_policy_witness :
    ScanEvent.fail (GoErr.other "boom") ∈
      [ScanEvent.next ⟨"c", 2⟩, ScanEvent.fail (GoErr.other "boom")] :=
  (counterCount_cache_error_policy (Except.error GoErr.cacheMiss)
      [ScanEvent.next ⟨"c", 2⟩, ScanEvent.fail (GoErr.other "boom")] none none).1
    (GoErr.other "boom") rfl

/-! ### Sessions (src/gae.go and the newest snapshot in src/CHANGELOG.md) -/

/-- GoTime models a `time.Time` instant as a signed count of nanoseconds,
with the zero Time at 0; ordering matches Go's `Before`, and `IsZero`
recognises the zero value. -/
structure GoTime where
  t : Int
deriving DecidableEq, Repr

/-- IsZero reports whether the instant is the zero Time. -/
def GoTime.IsZero (a : GoTime) : Bool := a.t == 0

/-- Before reports whether the instant `a` is strictly before `b`. -/
def GoTime.Before (a b : GoTime) : Bool := decide (a.t < b.t)

/-- Session keeps track of a user's session information; KeyID is the
entity's key (not stored as a property), Value holds a jsonified payload,
Expiration the absolute expiry instant. -/
structure Session where
  KeyID : Option String
  Name : String
  Value : String
  Expiration : GoTime
deriving DecidableEq, Repr

/-- Valid transcribes `Session.Valid`: false when Expiration is the zero
value, false when Expiration is before the current time, true otherwise.
The current time is passed explicitly. -/
def Session.Valid (s : Session) (now : GoTime) : Bool :=
  if s.Expiration.IsZero then false
  else if s.Expiration.Before now then false
  else true

/-- CacheRead is the outcome of the `memcache.Get` plus `json.Unmarshal`
prefix of CheckSession: a miss-or-transport error, a hit whose bytes fail to
unmarshal into a Session, or a hit carrying session `s`. -/
inductive CacheRead where
  | err
  | badBytes
  | sess (s : Session)
deriving DecidableEq, Repr

/-- SessionEnv packages the collaborator responses one CheckSession call
observes: the cache read outcome, whether `datastore.DecodeKey` accepts the
token, the `datastore.Get` outcome at the decoded key, and the outcome of
the cache-repopulating `memcache.Add`, which the code ignores. -/
structure SessionEnv where
  cacheRead : CacheRead
  decodeOk : Bool
  storeGet : Except GoErr Session
  addResult : Option GoErr
deriving Repr

/-- CheckSession transcribes the Go function: a good cache hit is judged by
`Session.Valid`; otherwise the token must decode to a key and the store
lookup must succeed, else the result is false; on a store hit the cache is
best-effort repopulated (`addResult` discarded) and the loaded session is
judged by `Session.Valid`. The function returns a plain Bool: no branch
surfaces an error. -/
def CheckSession (env : SessionEnv) (now : GoTime) : Bool :=
  match env.cacheRead with
  | CacheRead.sess s => s.Valid now
  | _ =>
    if env.decodeOk then
      match env.storeGet with
      | Except.error _ => false
      | Except.ok s =>
        let _ := env.addResult
        s.Valid now
    else false

/-- sessionLoadedSpec restates, in the specification's words, which session
descriptor a CheckSession call successfully loads: the one from a good
cache hit, else the one the store returns when the token decodes and the
lookup succeeds, else none. It is the comparison target for the boolean
contract of CheckSession, not a transcription of the code. -/
def sessionLoadedSpec (env : SessionEnv) : Option Session :=
  match env.cacheRead with
  | CacheRead.sess s => some s
  | _ =>
    if env.decodeOk then
      match env.storeGet with
      | Except.ok s => some s
      | Except.error _ => none
    else none

/-- C6: CheckSession has a boolean contract: whatever the cache, decode and
store outcomes are, it returns true exactly when a session descriptor was
successfully loaded (from cache or store) and that descriptor is valid, and
false otherwise — a decode failure or store failure yields false, never an
error, and the ignored cache-repopulation outcome cannot influence the
result. -/
theorem checkSession_boolean_contract (env : SessionEnv) (now : GoTime) :
    CheckSession env now =
      match sessionLoadedSpec env with
      | some s => s.Valid now
      | none => false := by
  unfold CheckSession sessionLoadedSpec
  cases env.cacheRead with
  | sess s => rfl
  | err =>
    cases henv : env.decodeOk with
    | true => cases env.storeGet <;> simp
    | false => simp
  | badBytes =>
    cases henv : env.decodeOk with
    | true => cases env.storeGet <;> simp
    | false => simp

/-- C7 counterexample: a session whose expiration equals the current
instant (and is non-zero) is judged valid by the code, yet it is not
strictly in the future; the claimed equivalence fails at this input. -/
theorem sessionValid_strict_counterexample :
    ¬ ((Session.mk none "s" "" ⟨5⟩).Valid ⟨5⟩ = true
        ↔ ((Session.mk none "s" "" ⟨5⟩).Expiration.t ≠ 0
            ∧ (GoTime.mk 5).t < (Session.mk none "s" "" ⟨5⟩).Expiration.t)) := by
  decide

/-- C7 amended: Session.Valid returns true exactly when the Expiration is
non-zero and not before the current time (a session expiring exactly at the
current instant is still valid); in particular a zero expiration is always
judged invalid. -/
theorem sessionValid_iff_amended (s : Session) (now : GoTime) :
    s.Valid now = true ↔ (s.Expiration.t ≠ 0 ∧ now.t ≤ s.Expiration.t) := by
  unfold Session.Valid GoTime.IsZero GoTime.Before
  by_cases h0 : s.Expiration.t = 0 <;>
    by_cases hlt : s.Expiration.t < now.t <;>
      (simp [h0, hlt]; try omega)

/-- Cookie models the returned `http.Cookie`: its Name, its Value (the
encoded datastore key) and its expiry instant. -/
structure Cookie where
  Name : String
  Value : String
  Expires : GoTime
deriving DecidableEq, Repr

/-- Payload is the caller-supplied `obj interface` argument as
MakeSessionCookie observes it: nil, a value `json.Marshal` rejects, or a
value that marshals to the string `js`. -/
inductive Payload where
  | nilObj
  | marshalErr
  | marshalOk (js : String)
deriving DecidableEq, Repr

/-- MakeSessionEnv packages the collaborator responses of one
MakeSessionCookie call: the `datastore.Put` outcome (the assigned key,
encoded) and the `memcache.Set` outcome, which the code discards. -/
structure MakeSessionEnv where
  putResult : Except GoErr String
  cacheSetResult : Option GoErr
deriving Repr

/-- MakeSessionCookie transcribes the Go function: the expiry is
now + duration seconds; the session's Value is set only when the payload
marshals; the session is put to the store (a failure aborts with that
error); the session is best-effort mirrored to cache (outcome discarded);
the cookie carries the name, the encoded key and the expiry. The second
component of the successful result is the session record that was put. -/
def MakeSessionCookie (env : MakeSessionEnv) (now : GoTime) (name : String)
    (obj : Payload) (duration : Int) : Except GoErr (Cookie × Session) :=
  let exp : GoTime := ⟨now.t + duration * 1000000000⟩
  let value : String :=
    match obj with
    | Payload.marshalOk js => js
    | _ => ""
  let s : Session := { KeyID := none, Name := name, Value := value, Expiration := exp }
  match env.putResult with
  | Except.error e => Except.error e
  | Except.ok key =>
    let _ := env.cacheSetResult
    Except.ok ({ Name := name, Value := key, Expires := exp }, s)

/-- C9: when the payload is nil or its JSON serialization fails,
MakeSessionCookie still persists the session with an empty Value field and,
when the store put succeeds, returns the cookie with no error: the payload
serialization failure is silently swallowed. -/
theorem makeSessionCookie_swallows_marshal_failure (env : MakeSessionEnv)
    (now : GoTime) (name : String) (obj : Payload) (duration : Int) (key : String)
    (hobj : obj = Payload.nilObj ∨ obj = Payload.marshalErr)
    (hput : env.putResult = Except.ok key) :
    MakeSessionCookie env now name obj duration =
      Except.ok (⟨name, key, ⟨now.t + duration * 1000000000⟩⟩,
        ⟨none, name, "", ⟨now.t + duration * 1000000000⟩⟩) := by
  cases hobj with
  | inl h => subst h; simp [MakeSessionCookie, hput]
  | inr h => subst h; simp [MakeSessionCookie, hput]

/-- Witness for makeSessionCookie_swallows_marshal_failure: a nil payload
with a successful put yields the cookie and an empty-Value session. -/
theorem makeSessionCookie_swallows_marshal_failure_witness :
    MakeSessionCookie ⟨Except.ok "K", none⟩ ⟨0⟩ "sess" Payload.nilObj 60 =
      Except.ok (⟨"sess", "K", ⟨60000000000⟩⟩, ⟨none, "sess", "", ⟨60000000000⟩⟩) :=
  makeSessionCookie_swallows_marshal_failure ⟨Except.ok "K", none⟩ ⟨0⟩ "sess"
    Payload.nilObj 60 "K" (Or.inl rfl) rfl

/-! ### Entity accessor: Save, SaveCacheEntity collaborators, DeleteByKey,
RetrieveEntityByID -/

/-- Model is a Datastorer as Save observes one: its ValidationError slice,
whether it implements the optional Presaver interface, whether its Presave
hook has run (the hook's observable side effect), its assigned key, and an
opaque payload standing for its other fields. -/
structure Model where
  validationErrors : List String
  hasPresaver : Bool
  presaved : Bool
  key : Option String
  data : String
deriving DecidableEq, Repr

/-- IsValid transcribes the Go helper: false when the ValidationError slice
is non-empty, true otherwise. -/
def IsValid (m : Model) : Bool :=
  if m.validationErrors.length > 0 then false else true

/-- Presave models invoking the record's Presave hook. -/
def Model.Presave (m : Model) : Model := { m with presaved := true }

/-- SetKey models `m.SetKey(key)`: the store-assigned key is written onto
the record. -/
def Model.SetKey (m : Model) (k : String) : Model := { m with key := some k }

/-- SaveEnv is the collaborator response one Save call observes: the
`datastore.Put` outcome, an error or the assigned key. -/
structure SaveEnv where
  putResult : Except GoErr String
deriving Repr

/-- Save transcribes the Go function as a function returning the Go result,
the final state of the record, and the list of records passed to
`datastore.Put` (the store writes): an invalid record fails with a
ValidityError joining all violations and touches nothing; a valid record
has its optional Presave hook invoked, is put to the store, and on success
receives the store-assigned key. -/
def Save (env : SaveEnv) (m : Model) : Except GoErr Unit × Model × List Model :=
  if !(IsValid m) then
    (Except.error (GoErr.validity (String.intercalate ", " m.validationErrors)), m, [])
  else
    let m1 := if m.hasPresaver then m.Presave else m
    match env.putResult with
    | Except.error e => (Except.error e, m1, [m1])
    | Except.ok key => (Except.ok (), m1.SetKey key, [m1])

/-- C4: a record with a non-empty ValidationError list makes Save return a
validation error joining all violation strings, with no store write, no
Presave invocation and no key assignment (the record is returned
unchanged); a valid record has its optional Presave hook invoked, is
written to the store, and on a successful put the store-returned key is
assigned onto it. -/
theorem save_validation_gate (env : SaveEnv) (m : Model) :
    (m.validationErrors ≠ [] →
      Save env m =
        (Except.error (GoErr.validity (String.intercalate ", " m.validationErrors)),
          m, []))
    ∧ (∀ key, m.validationErrors = [] → env.putResult = Except.ok key →
      Save env m =
        (Except.ok (), (if m.hasPresaver then m.Presave else m).SetKey key,
          [if m.hasPresaver then m.Presave else m])) := by
  constructor
  · intro hne
    have hval : IsValid m = false := by
      unfold IsValid
      have : 0 < m.validationErrors.length := List.length_pos.mpr hne
      simp [this]
    simp [Save, hval]
  · intro key hnil hput
    have hval : IsValid m = true := by
      simp [IsValid, hnil]
    simp [Save, hval, hput]

/-- Witness for save_validation_gate: an invalid record fails with the
joined message and is untouched, and a valid record is presaved, put, and
keyed. -/
theorem save_validation_gate_witness :
    Save ⟨Except.ok "K"⟩ ⟨["Name is required", "Batch is negative"], false, false, none, "d"⟩
      = (Except.error (GoErr.validity "Name is required, Batch is negative"),
          ⟨["Name is required", "Batch is negative"], false, false, none, "d"⟩, [])
    ∧ Save ⟨Except.ok "K"⟩ ⟨[], true, false, none, "d"⟩
      = (Except.ok (), ⟨[], true, true, some "K", "d"⟩, [⟨[], true, true, none, "d"⟩]) :=
  ⟨(save_validation_gate ⟨Except.ok "K"⟩
      ⟨["Name is required", "Batch is negative"], false, false, none, "d"⟩).1
        (by simp),
   (save_validation_gate ⟨Except.ok "K"⟩ ⟨[], true, false, none, "d"⟩).2 "K" rfl rfl⟩

/-- EntityWorld models the datastore records and memcache entries the
entity accessor touches, both keyed by the encoded key string; the stored
values are the records' serialized snapshots. -/
structure EntityWorld where
  store : List (String × String)
  cache : List (String × String)
deriving DecidableEq, Repr

/-- DeleteByKey transcribes the newest snapshot's function: first
`memcache.Delete` on the encoded key with any cache error ignored
(`cacheFault` true models a cache transport failure that leaves the entry
behind), then `datastore.Delete`, whose outcome (`storeResult`) is
returned; a store failure leaves the store unchanged. -/
def DeleteByKey (w : EntityWorld) (k : String) (cacheFault : Bool)
    (storeResult : Option GoErr) : EntityWorld × Option GoErr :=
  let cache1 := if cacheFault then w.cache else delAssoc w.cache k
  match storeResult with
  | some e => ({ w with cache := cache1 }, some e)
  | none => ({ store := delAssoc w.store k, cache := cache1 }, none)

/-- RetrieveEntityByID transcribes the Go function on a fault-free cache: a
cache hit is returned as-is; on a miss the id is decoded (`dec`) and the
store is read, a failure of either being returned verbatim
(`ErrNoSuchEntity` for an absent record); on a store hit the cache is
backfilled and the record returned. -/
def RetrieveEntityByID (dec : String → Option String) (w : EntityWorld)
    (id : String) : Except GoErr String × EntityWorld :=
  match getAssoc w.cache id with
  | some v => (Except.ok v, w)
  | none =>
    match dec id with
    | none => (Except.error (GoErr.other "invalid key"), w)
    | some k =>
      match getAssoc w.store k with
      | none => (Except.error GoErr.noSuchEntity, w)
      | some v => (Except.ok v, { w with cache := putAssoc w.cache id v })

/-- C5: DeleteByKey removes the cache entry first (its outcome never
affects the returned result, which is always the store's outcome), and
after a successful delete with the cache delete executed, a direct cache
get on the key misses and a subsequent Retrieve of the same key fails with
NotFound. -/
theorem deleteByKey_cache_then_store (dec : String → Option String)
    (w : EntityWorld) (k : String) (hdec : dec k = some k) :
    (DeleteByKey w k false none).2 = none
    ∧ getAssoc (DeleteByKey w k false none).1.cache k = none
    ∧ (RetrieveEntityByID dec (DeleteByKey w k false none).1 k).1
        = Except.error GoErr.noSuchEntity
    ∧ ∀ (cacheFault : Bool) (storeResult : Option GoErr),
        (DeleteByKey w k cacheFault storeResult).2 = storeResult := by
  refine ⟨rfl, ?_, ?_, ?_⟩
  · simpa [DeleteByKey] using getAssoc_del w.cache k
  · have hcache : getAssoc (delAssoc w.cache k) k = none := getAssoc_del w.cache k
    have hstore : getAssoc (delAssoc w.store k) k = none := getAssoc_del w.store k
    simp [DeleteByKey, RetrieveEntityByID, hcache, hstore, hdec]
  · intro cacheFault storeResult
    cases storeResult <;> rfl

/-- Witness for deleteByKey_cache_then_store: deleting the only record of a
one-record world empties cache and store and makes Retrieve fail. -/
theorem deleteByKey_cache_then_store_witness :
    (DeleteByKey ⟨[("K", "rec")], [("K", "rec")]⟩ "K" false none).2 = none
    ∧ getAssoc (DeleteByKey ⟨[("K", "rec")], [("K", "rec")]⟩ "K" false none).1.cache "K"
        = none
    ∧ (RetrieveEntityByID (fun s => some s)
          (DeleteByKey ⟨[("K", "rec")], [("K", "rec")]⟩ "K" false none).1 "K").1
        = Except.error GoErr.noSuchEntity
    ∧ ∀ (cacheFault : Bool) (storeResult : Option GoErr),
        (DeleteByKey ⟨[("K", "rec")], [("K", "rec")]⟩ "K" cacheFault storeResult).2
          = storeResult :=
  deleteByKey_cache_then_store (fun s => some s) ⟨[("K", "rec")], [("K", "rec")]⟩
    "K" rfl

/-! ### DateTime JSON round trip -/

/-- DateTime is the auxiliary struct wrapping a time.Time for RFC3339 JSON
conversion. -/
structure DateTime where
  Time : GoTime
deriving DecidableEq, Repr

/-- IsZero for a DateTime defers to its wrapped time. -/
def DateTime.IsZero (d : DateTime) : Bool := d.Time.IsZero

/-- jsonQuote renders `json.Marshal` of a plain string (the RFC3339 outputs
involved need no escaping). -/
def jsonQuote (s : String) : String := "\"" ++ s ++ "\""

/-- jsonUnmarshalString models `json.Unmarshal` of a JSON string into a Go
string (escape-free inputs): the input must be wrapped in quotes. -/
def jsonUnmarshalString (input : String) : Option String :=
  if input.length ≥ 2 && input.startsWith "\"" && input.endsWith "\"" then
    some ((input.drop 1).dropRight 1)
  else none

/-- TimeCodec abstracts the external `time.Format`/`time.Parse` pair for the
RFC3339 layout. -/
structure TimeCodec where
  format : Int → String
  parse : String → Option Int

/-- sampleCodec is a concrete stand-in codec used to evaluate the DateTime
functions on concrete inputs. -/
def sampleCodec : TimeCodec :=
  { format := fun t => toString t, parse := fun s => s.toInt? }

/-- MarshalJSON transcribes the Go method: a zero time marshals to the JSON
string `""`, any other time to its RFC3339 rendering in quotes. -/
def DateTime.MarshalJSON (c : TimeCodec) (d : DateTime) : String :=
  if d.IsZero then jsonQuote "" else jsonQuote (c.format d.Time.t)

/-- UnmarshalJSON transcribes the current method (src/gae.go and the newest
snapshot): on the input `""` the Go code executes `d = &DateTime{}`, which
rebinds the local receiver pointer and leaves the caller's value untouched,
so the model returns the receiver unchanged; otherwise the JSON string is
decoded, parsed, and on success stored into the receiver's Time. -/
def DateTime.UnmarshalJSON (c : TimeCodec) (d : DateTime) (input : String) :
    Except GoErr DateTime :=
  if input = jsonQuote "" then
    Except.ok d
  else
    match jsonUnmarshalString input with
    | none => Except.error (GoErr.other "json: cannot unmarshal")
    | some s =>
      match c.parse s with
      | none => Except.error (GoErr.other "parsing time")
      | some t => Except.ok { d with Time := ⟨t⟩ }

/-- UnmarshalJSONPrev transcribes the earlier snapshot's method
(src/unnamed/part_002), whose empty-string branch executes
`this.Time = time.Time{}` and so really zeroes the receiver. -/
def DateTime.UnmarshalJSONPrev (c : TimeCodec) (d : DateTime) (input : String) :
    Except GoErr DateTime :=
  if input = jsonQuote "" then
    Except.ok { d with Time := ⟨0⟩ }
  else
    match jsonUnmarshalString input with
    | none => Except.error (GoErr.other "json: cannot unmarshal")
    | some s =>
      match c.parse s with
      | none => Except.error (GoErr.other "parsing time")
      | some t => Except.ok { d with Time := ⟨t⟩ }

/-- C3 (code bug): MarshalJSON of a zero DateTime does yield the JSON
string `""`, but UnmarshalJSON of `""` applied to a DateTime holding a
non-zero time returns it unchanged instead of zeroing it — `d = &DateTime{}`
rebinds the local pointer — contradicting the method's own documentation
and the earlier snapshot's behaviour, which did zero the receiver. -/
theorem dateTime_unmarshal_empty_keeps_receiver :
    DateTime.MarshalJSON sampleCodec ⟨⟨0⟩⟩ = jsonQuote ""
    ∧ DateTime.UnmarshalJSON sampleCodec ⟨⟨5⟩⟩ (jsonQuote "") = Except.ok ⟨⟨5⟩⟩
    ∧ (DateTime.mk ⟨5⟩).IsZero = false
    ∧ DateTime.UnmarshalJSONPrev sampleCodec ⟨⟨5⟩⟩ (jsonQuote "")
        = Except.ok ⟨⟨0⟩⟩ := by
  refine ⟨rfl, ?_, rfl, ?_⟩ <;> simp [DateTime.UnmarshalJSON, DateTime.UnmarshalJSONPrev]

end GAE
